import Mathlib

/-!
Verification of the WhisperLive RunPod streaming-transcription client
(`test-long-transcription.py`) against its natural-language specification.

The Python program is shallowly embedded: each relevant operation of the
source becomes a total Lean function over explicit data, and the two
concurrent coroutines (audio sender, result receiver) become functions from
their finite input (audio sample buffer; list of inbound messages) to the
trace of observable events they produce / the state they build.
-/

namespace WL

/-! ## Strings: Python `str.strip`, `str.lower`, substring containment -/

/-- Whitespace characters recognized by Python's default `str.strip()`:
space, tab, newline, carriage return, vertical tab, form feed. -/
def pySpace (c : Char) : Bool :=
  c == ' ' || c == '\t' || c == '\n' || c == '\r' ||
    c == Char.ofNat 11 || c == Char.ofNat 12

/-- Drop leading and trailing whitespace from a character list
(the character-level core of Python's `str.strip()`). -/
def stripChars (l : List Char) : List Char :=
  ((l.dropWhile pySpace).reverse.dropWhile pySpace).reverse

/-- Python's `s.strip()`. -/
def pystrip (s : String) : String := String.mk (stripChars s.data)

/-- Test whether the first list is an initial run of the second
(character-by-character equality on a leading run). -/
def leadsWith : List Char → List Char → Bool
  | [], _ => true
  | _ :: _, [] => false
  | a :: as, b :: bs => a == b && leadsWith as bs

/-- Substring containment test on character lists: `needle` occurs
contiguously somewhere in the haystack. -/
def containsSub (needle : List Char) : List Char → Bool
  | [] => needle.isEmpty
  | c :: rest => leadsWith needle (c :: rest) || containsSub needle rest

/-- Python's `"error" in msg.lower()` from the receiver: case-insensitive
substring check for the error indicator. -/
def hasError (msg : String) : Bool :=
  containsSub "error".data (msg.toLower).data

/-! ## Data model -/

/-- One transcript segment as decoded from an inbound JSON record.  The
Python code accesses the fields dynamically with `seg.get("text", "")`,
`seg.get("start", 0)`, `seg.get("end", 0)`, so each field may be absent;
times are modelled as rationals (their exact values are only carried
through to the report, never computed with). -/
structure Segment where
  text : Option String := none
  start : Option Rat := none
  stop : Option Rat := none
deriving DecidableEq

/-- The normalized text of a segment: `seg.get("text", "").strip()`. -/
def segKey (s : Segment) : String := pystrip (s.text.getD "")

/-- One line of the final transcript, before rendering: the code formats
`f"[{start:.1f}s - {end:.1f}s] {text}"` from `seg.get("start", 0)`,
`seg.get("end", 0)` and the stripped text. -/
structure TranscriptLine where
  start : Rat
  stop : Rat
  text : String
deriving DecidableEq

/-- Build the transcript line for a retained segment (source lines 172-174). -/
def mkLine (s : Segment) : TranscriptLine :=
  { start := s.start.getD 0, stop := s.stop.getD 0, text := segKey s }

/-! ## Orchestrator post-processing: deduplication (source lines 166-174)

```
seen_texts = set()
transcript_lines = []
for seg in results:
    text = seg.get("text", "").strip()
    if text and text not in seen_texts:
        seen_texts.add(text)
        ...
        transcript_lines.append(f"[{start:.1f}s - {end:.1f}s] {text}")
```
-/

/-- The deduplication loop of `main`, with the `seen_texts` set made
explicit as the list of texts added so far.  A segment is retained iff its
stripped text is non-empty (Python truthiness of `text`) and not seen yet. -/
def dedupAux : List Segment → List String → List TranscriptLine
  | [], _ => []
  | seg :: rest, seen =>
    let text := segKey seg
    if text ≠ "" ∧ text ∉ seen then
      mkLine seg :: dedupAux rest (text :: seen)
    else
      dedupAux rest seen

/-- The `transcript_lines` list computed by `main` from the collected
`results`. -/
def transcriptLines (rs : List Segment) : List TranscriptLine := dedupAux rs []

/-- Modelled from the spec claim's words (C2): keep a record iff no earlier
record of the original sequence has the same normalized text — first-seen
per distinct normalized text, in original order, with no further condition.
`prev` is the prefix of records already iterated past. -/
def claimDedupAux : List Segment → List Segment → List TranscriptLine
  | _, [] => []
  | prev, s :: rest =>
    if segKey s ∉ prev.map segKey then
      mkLine s :: claimDedupAux (prev ++ [s]) rest
    else
      claimDedupAux (prev ++ [s]) rest

/-- Deduplication exactly as claim C2 states it. -/
def claimDedup (rs : List Segment) : List TranscriptLine := claimDedupAux [] rs

/-- Amended deduplication policy: keep a record iff its normalized text is
non-empty and no earlier record of the original sequence has the same
normalized text.  `prev` is the prefix of records already iterated past. -/
def specDedupAux : List Segment → List Segment → List TranscriptLine
  | _, [] => []
  | prev, s :: rest =>
    if segKey s ≠ "" ∧ segKey s ∉ prev.map segKey then
      mkLine s :: specDedupAux (prev ++ [s]) rest
    else
      specDedupAux (prev ++ [s]) rest

/-- Top-level amended deduplication policy. -/
def specDedup (rs : List Segment) : List TranscriptLine := specDedupAux [] rs

/-! ## Report rendering (source lines 176-192)

The durations handed to the report (`audio_duration`, `total_time`) are
modelled as rationals; `fmtFixed` models Python's fixed-point float
formatting `f"{x:.1f}"` / `f"{x:.2f}"` (round to the given number of
decimals).  No claim depends on the rendered digits themselves. -/

/-- Pad a decimal string on the left with zeros up to width `w`. -/
def padZeros (w : Nat) (s : String) : String :=
  String.mk (List.replicate (w - s.length) '0') ++ s

/-- Fixed-point rendering with `digits` decimals, modelling Python's
`f"{x:.Nf}"`. -/
def fmtFixed (digits : Nat) (q : Rat) : String :=
  let p : Nat := 10 ^ digits
  let t : Int := round (q * (p : Rat))
  let a : Nat := t.natAbs
  (if t < 0 then "-" else "") ++ toString (a / p) ++ "." ++ padZeros digits (toString (a % p))

/-- Render one transcript line: `f"[{start:.1f}s - {end:.1f}s] {text}"`. -/
def formatLine (l : TranscriptLine) : String :=
  "[" ++ fmtFixed 1 l.start ++ "s - " ++ fmtFixed 1 l.stop ++ "s] " ++ l.text

/-- The `"=" * 70` separator used in the report. -/
def sep70 : String := String.mk (List.replicate 70 '=')

/-- The first five report lines (source lines 184-188): everything the
write sequence has put into the file before the real-time-factor line is
attempted. -/
def reportPrefix (runNumber : Nat) (audioFile : String)
    (audioDuration processingTime : Rat) : String :=
  "Transcription Results - Run #" ++ toString runNumber ++ "\n" ++
  sep70 ++ "\n" ++
  "Audio file: " ++ audioFile ++ "\n" ++
  "Audio duration: " ++ fmtFixed 1 audioDuration ++ "s (" ++
    fmtFixed 1 (audioDuration / 60) ++ " min)\n" ++
  "Processing time: " ++ fmtFixed 1 processingTime ++ "s (" ++
    fmtFixed 1 (processingTime / 60) ++ " min)\n"

/-- The complete header block (source lines 184-191), parameterized by the
unique-segment count it reports.  The real-time-factor line it contains
divides by the audio duration; this content is therefore only ever written
in full when that duration is non-zero (see `writeReport`, which models
the failing run). -/
def reportHeader (runNumber : Nat) (audioFile : String)
    (audioDuration processingTime : Rat) (uniqueCount : Nat) : String :=
  reportPrefix runNumber audioFile audioDuration processingTime ++
  "Real-time factor: " ++ fmtFixed 2 (processingTime / audioDuration) ++ "x\n" ++
  "Unique segments: " ++ toString uniqueCount ++ "\n" ++
  sep70 ++ "\n\n"

/-- The complete report content of a successful write: header block (whose
unique-segment count is the length of `transcript_lines`) followed by the
transcript body `"\n".join(transcript_lines)`. -/
def reportText (runNumber : Nat) (audioFile : String)
    (audioDuration processingTime : Rat) (rs : List Segment) : String :=
  let lines := transcriptLines rs
  reportHeader runNumber audioFile audioDuration processingTime lines.length ++
    String.intercalate "\n" (lines.map formatLine)

/-- Outcome of the report write sequence: the content actually written to
the file, and whether the sequence ran to completion (`completed = false`
models an exception escaping mid-write, leaving a truncated file). -/
structure ReportOutcome where
  written : String
  completed : Bool
deriving DecidableEq

/-- The report write sequence of `main` (source lines 183-192), including
its error path.  The first five `f.write` lines always succeed; line 189
then evaluates `total_time/audio_duration` before writing.  When the audio
duration is zero — a well-formed zero-frame input file gives
`duration = 0/sample_rate = 0.0` at source line 34 — Python raises
`ZeroDivisionError` there: the file is left holding only the first five
lines (no real-time-factor line, no `Unique segments` line, no body) and
the exception escapes to the caller.  Otherwise the remaining header lines
and the transcript body are written and the write completes. -/
def writeReport (runNumber : Nat) (audioFile : String)
    (audioDuration processingTime : Rat) (rs : List Segment) : ReportOutcome :=
  if audioDuration = 0 then
    { written := reportPrefix runNumber audioFile audioDuration processingTime,
      completed := false }
  else
    { written := reportText runNumber audioFile audioDuration processingTime rs,
      completed := true }

/-! ## Audio Feeder (source lines 79-109)

```
total_chunks = len(audio_float32) // chunk_samples
...
for i in range(0, len(audio_float32), chunk_samples):
    chunk = audio_float32[i:i+chunk_samples]
    try:
        await ws.send(chunk_bytes)
        chunks_sent += 1
        progress = chunks_sent * 100 // total_chunks
        if chunks_sent % (total_chunks // 10 + 1) == 0:
            print(...)
        await asyncio.sleep(...)
    except websockets.exceptions.ConnectionClosed:
        print(f"Connection closed after {chunks_sent} chunks"); break
print(f"Finished sending audio ({chunks_sent} chunks)")
await asyncio.sleep(10)
receive_done.set()
```

The sample element type is abstract (`α`); whether a send succeeds is a
function of the 0-based count of frames already sent (a send that fails
raises `ConnectionClosed`).  Note `progress = chunks_sent * 100 //
total_chunks` is evaluated before the cadence test: when `total_chunks`
is `0` and a frame was sent, Python raises `ZeroDivisionError`, which the
`except ConnectionClosed` handler does not catch — the loop aborts and
the trailing "finished"/grace/stop steps never run. -/

/-- Observable events of the Feeder task, in order. -/
inductive FeedEv (α : Type) where
  | frame (chunk : List α)
  | progress (sent pct : Nat)
  | closedLog (sent : Nat)
  | zeroDivCrash (sent : Nat)
  | finishedLog (sent : Nat)
  | grace
  | stopSignal
deriving DecidableEq

/-- Consecutive slices `samples[i:i+F]` for `i in range(0, L, F)`, with the
list length as recursion fuel (each step consumes at least one element when
`0 < F`). -/
def slicesAux {α : Type} (F : Nat) : Nat → List α → List (List α)
  | 0, _ => []
  | _, [] => []
  | fuel + 1, s => s.take F :: slicesAux F fuel (s.drop F)

/-- All chunks the `for i in range(0, len(audio_float32), chunk_samples)`
loop iterates over, in order. -/
def slices {α : Type} (F : Nat) (s : List α) : List (List α) :=
  slicesAux F s.length s

/-- The body of the Feeder's send loop over the chunk list: returns the
emitted events, the final `chunks_sent`, and whether the loop aborted with
an uncaught `ZeroDivisionError`. -/
def senderGo {α : Type} (total : Nat) (sendOk : Nat → Bool) :
    List (List α) → Nat → List (FeedEv α) × Nat × Bool
  | [], sent => ([], sent, false)
  | c :: rest, sent =>
    if sendOk sent then
      if total = 0 then
        ([FeedEv.frame c, FeedEv.zeroDivCrash (sent + 1)], sent + 1, true)
      else
        let evs := if (sent + 1) % (total / 10 + 1) = 0 then
            [FeedEv.frame c, FeedEv.progress (sent + 1) ((sent + 1) * 100 / total)]
          else [FeedEv.frame c]
        let res := senderGo total sendOk rest (sent + 1)
        (evs ++ res.1, res.2.1, res.2.2)
    else
      ([FeedEv.closedLog sent], sent, false)

/-- The full Feeder task: run the send loop, then (unless it aborted with
`ZeroDivisionError`) log the sent count, wait the fixed 10 s grace period
and raise the stop signal. -/
def feeder {α : Type} (F : Nat) (sendOk : Nat → Bool) (samples : List α) :
    List (FeedEv α) :=
  let total := samples.length / F
  let res := senderGo total sendOk (slices F samples) 0
  if res.2.2 then res.1
  else res.1 ++ [FeedEv.finishedLog res.2.1, FeedEv.grace, FeedEv.stopSignal]

/-- Extract the audio chunk of a `frame` event. -/
def frameChunk {α : Type} : FeedEv α → Option (List α)
  | FeedEv.frame c => some c
  | _ => none

/-- The chunks transmitted over the connection, in order. -/
def framesOf {α : Type} (t : List (FeedEv α)) : List (List α) :=
  t.filterMap frameChunk

/-- The `chunks_sent` values at which a progress status line was printed,
in order. -/
def progressCounts {α : Type} (t : List (FeedEv α)) : List Nat :=
  t.filterMap fun e => match e with
    | FeedEv.progress sent _ => some sent
    | _ => none

/-! ## Outbound protocol messages (source lines 66-76 and the sender) -/

/-- A message sent to the server: the one JSON configuration handshake, or
one raw binary audio frame. -/
inductive OutMsg (α : Type) where
  | config (uid language task model : String) (useVad : Bool)
  | audioFrame (chunk : List α)
deriving DecidableEq

/-- Recognize the configuration handshake. -/
def isConfig {α : Type} : OutMsg α → Bool
  | OutMsg.config _ _ _ _ _ => true
  | _ => false

/-- Everything the session sends, in order: `run_transcription` sends the
config (source line 74) and only then starts the sender task, whose
transmissions are exactly its `frame` events. -/
def outboundTrace {α : Type} (F runNumber : Nat) (sendOk : Nat → Bool)
    (samples : List α) : List (OutMsg α) :=
  OutMsg.config ("long-test-" ++ toString runNumber) "en" "transcribe" "small.en" true ::
    (feeder F sendOk samples).filterMap fun e => match e with
      | FeedEv.frame c => some (OutMsg.audioFrame c)
      | _ => none

/-! ## Result Collector (source lines 111-140)

```
while not receive_done.is_set():
    try:
        msg = await asyncio.wait_for(ws.recv(), timeout=2.0)
        data = json.loads(msg)
        if "segments" in data:
            for seg in data["segments"]:
                results.append(seg)
                text = seg.get("text", "").strip()
                if text and text != last_text:
                    segment_count += 1
                    if segment_count % 5 == 1: print(...)
                    last_text = text
        elif "message" in data:
            if "error" in data["message"].lower():
                print(f"Server error: {data['message']}")
    except asyncio.TimeoutError:
        continue
    except websockets.exceptions.ConnectionClosed:
        break
    except Exception as e:
        print(f"Receiver error: {e}")
        break
```
-/

/-- State accumulated by the Collector: the shared `results` list, the
`last_text` / `segment_count` progress-print state, the console logs, and
whether the generic exception handler fired. -/
structure RecvState where
  results : List Segment
  lastText : String
  segmentCount : Nat
  segLog : List String
  errLog : List String
  recvErr : Bool
deriving DecidableEq

/-- Collector state at session start. -/
def initState : RecvState :=
  { results := [], lastText := "", segmentCount := 0,
    segLog := [], errLog := [], recvErr := false }

/-- Process one segment of a `"segments"` batch: append it to `results`
unconditionally, then update the progress-print state. -/
def handleSeg (st : RecvState) (seg : Segment) : RecvState :=
  let st1 := { st with results := st.results ++ [seg] }
  let text := segKey seg
  if text ≠ "" ∧ text ≠ st1.lastText then
    { st1 with
      segmentCount := st1.segmentCount + 1,
      segLog := if (st1.segmentCount + 1) % 5 = 1 then st1.segLog ++ [text]
        else st1.segLog,
      lastText := text }
  else st1

/-- Process a whole `"segments"` batch in order. -/
def handleSegs (st : RecvState) (ss : List Segment) : RecvState :=
  ss.foldl handleSeg st

/-- One inbound receive-loop outcome: a parsed JSON record (with its
optional `"segments"` and `"message"` fields), unparseable content
(`json.loads` raises), a 2 s receive timeout, or a closed connection. -/
inductive InMsg where
  | record (segments : Option (List Segment)) (message : Option String)
  | malformed
  | timeout
  | closed
deriving DecidableEq

/-- One iteration of the Collector loop: the updated state and whether the
loop continues.  `timeout` re-checks the loop condition and retries; a
`closed` connection breaks; unparseable content is caught by the generic
`except Exception` handler, which logs and breaks; a parsed record is
dispatched on its fields (`if "segments" in data: ... elif "message" in
data: ...`, anything else ignored). -/
def recvStep (st : RecvState) (m : InMsg) : RecvState × Bool :=
  match m with
  | InMsg.timeout => (st, true)
  | InMsg.closed => (st, false)
  | InMsg.malformed => ({ st with recvErr := true }, false)
  | InMsg.record (some ss) _ => (handleSegs st ss, true)
  | InMsg.record none (some s) =>
    ((if hasError s then { st with errLog := st.errLog ++ [s] } else st), true)
  | InMsg.record none none => (st, true)

/-- The Collector's receive loop over a finite sequence of inbound
outcomes. -/
def receiver : List InMsg → RecvState → RecvState
  | [], st => st
  | m :: rest, st =>
    let r := recvStep st m
    if r.2 then receiver rest r.1 else r.1

/-! ## Correspondence between the code's dedup loop and the
first-seen-per-distinct-nonempty-text policy -/

theorem dedupAux_eq_specAux :
    ∀ (rest : List Segment) (seen : List String) (prev : List Segment),
      (∀ t : String, t ∈ seen ↔ (t ≠ "" ∧ t ∈ prev.map segKey)) →
      dedupAux rest seen = specDedupAux prev rest := by
  intro rest
  induction rest with
  | nil => intro seen prev _; rfl
  | cons s r ih =>
    intro seen prev hinv
    have hcond : (segKey s ≠ "" ∧ segKey s ∉ seen) ↔
        (segKey s ≠ "" ∧ segKey s ∉ prev.map segKey) := by
      constructor
      · rintro ⟨hne, hnotin⟩
        exact ⟨hne, fun hmem => hnotin ((hinv (segKey s)).2 ⟨hne, hmem⟩)⟩
      · rintro ⟨hne, hnotin⟩
        exact ⟨hne, fun hmem => hnotin ((hinv (segKey s)).1 hmem).2⟩
    by_cases h : segKey s ≠ "" ∧ segKey s ∉ prev.map segKey
    · have h' : segKey s ≠ "" ∧ segKey s ∉ seen := hcond.2 h
      rw [dedupAux, specDedupAux]
      simp only [if_pos h, if_pos h']
      congr 1
      apply ih
      intro t
      constructor
      · intro ht
        rcases List.mem_cons.1 ht with rfl | ht
        · exact ⟨h.1, by simp⟩
        · have := (hinv t).1 ht
          exact ⟨this.1, by simp [this.2]⟩
      · rintro ⟨hne, hmem⟩
        rw [List.map_append, List.mem_append] at hmem
        rcases hmem with hmem | hmem
        · exact List.mem_cons.2 (Or.inr ((hinv t).2 ⟨hne, hmem⟩))
        · simp only [List.map_cons, List.map_nil, List.mem_singleton] at hmem
          exact List.mem_cons.2 (Or.inl hmem)
    · have h' : ¬(segKey s ≠ "" ∧ segKey s ∉ seen) := fun hx => h (hcond.1 hx)
      rw [dedupAux, specDedupAux]
      simp only [if_neg h, if_neg h']
      apply ih
      intro t
      constructor
      · intro ht
        have := (hinv t).1 ht
        exact ⟨this.1, by simp [this.2]⟩
      · rintro ⟨hne, hmem⟩
        rw [List.map_append, List.mem_append] at hmem
        rcases hmem with hmem | hmem
        · exact (hinv t).2 ⟨hne, hmem⟩
        · simp only [List.map_cons, List.map_nil, List.mem_singleton] at hmem
          subst hmem
          rcases not_and_or.1 h with hne' | hseen
          · exact absurd hne hne'
          · exact (hinv (segKey s)).2 ⟨hne, not_not.1 hseen⟩


/-! ## Idempotence of stripping (needed to state "non-empty after
whitespace stripping" about already-stripped stored text) -/

theorem dropWhile_idem (p : Char → Bool) (l : List Char) :
    (l.dropWhile p).dropWhile p = l.dropWhile p := by
  induction l with
  | nil => rfl
  | cons a t ih =>
    cases hpa : p a with
    | true => simp [List.dropWhile_cons, hpa, ih]
    | false => simp [List.dropWhile_cons, hpa]

theorem head?_dropWhile (p : Char → Bool) (l : List Char) (c : Char)
    (h : (l.dropWhile p).head? = some c) : p c = false := by
  induction l with
  | nil => simp at h
  | cons a t ih =>
    rw [List.dropWhile_cons] at h
    by_cases hpa : p a
    · exact ih (by simpa [hpa] using h)
    · simp only [if_neg hpa, List.head?_cons, Option.some.injEq] at h
      subst h
      exact Bool.eq_false_iff.2 hpa

theorem dropWhile_eq_self_of_head (p : Char → Bool) (l : List Char)
    (h : ∀ c, l.head? = some c → p c = false) : l.dropWhile p = l := by
  cases l with
  | nil => rfl
  | cons a t =>
    have := h a rfl
    simp [List.dropWhile_cons, this]

theorem stripChars_idem (l : List Char) :
    stripChars (stripChars l) = stripChars l := by
  have hxx : ((l.dropWhile pySpace).reverse.dropWhile pySpace).dropWhile pySpace =
      (l.dropWhile pySpace).reverse.dropWhile pySpace :=
    dropWhile_idem pySpace (l.dropWhile pySpace).reverse
  have hA : ((l.dropWhile pySpace).reverse.dropWhile pySpace).reverse.dropWhile pySpace =
      ((l.dropWhile pySpace).reverse.dropWhile pySpace).reverse := by
    apply dropWhile_eq_self_of_head
    intro c hc
    rw [List.head?_reverse] at hc
    have hne : (l.dropWhile pySpace).reverse.dropWhile pySpace ≠ [] := by
      intro hnil
      rw [hnil] at hc
      simp at hc
    obtain ⟨t, ht⟩ :=
      List.dropWhile_suffix (l := (l.dropWhile pySpace).reverse) (p := pySpace)
    have hlast : ((l.dropWhile pySpace).reverse.dropWhile pySpace).getLast? =
        (l.dropWhile pySpace).reverse.getLast? := by
      conv_rhs => rw [← ht]
      exact (List.getLast?_append_of_ne_nil t hne).symm
    rw [hlast, List.getLast?_reverse] at hc
    exact head?_dropWhile pySpace l c hc
  show stripChars (((l.dropWhile pySpace).reverse.dropWhile pySpace).reverse) = _
  unfold stripChars
  rw [hA, List.reverse_reverse, hxx]

theorem pystrip_idem (s : String) : pystrip (pystrip s) = pystrip s :=
  congrArg String.mk (stripChars_idem s.data)

/-- Every line the dedup loop retains has non-empty text, and that text is
already in stripped form. -/
theorem mem_dedupAux_text :
    ∀ (rest : List Segment) (seen : List String) (l : TranscriptLine),
      l ∈ dedupAux rest seen → l.text ≠ "" ∧ pystrip l.text = l.text := by
  intro rest
  induction rest with
  | nil => intro seen l h; simp [dedupAux] at h
  | cons s r ih =>
    intro seen l h
    rw [dedupAux] at h
    by_cases hc : segKey s ≠ "" ∧ segKey s ∉ seen
    · simp only [if_pos hc] at h
      rcases List.mem_cons.1 h with rfl | h
      · refine ⟨hc.1, ?_⟩
        show pystrip (segKey s) = segKey s
        exact pystrip_idem _
      · exact ih _ _ h
    · simp only [if_neg hc] at h
      exact ih _ _ h

/-- C2. The claim's deduplication policy (first-seen record per distinct
normalized text, with no further condition) disagrees with the code on a
whitespace-only segment: the code retains nothing, while the claimed policy
retains the first-seen record for the (empty) normalized text. -/
theorem c2_dedup_counterexample :
    transcriptLines [{ text := some " " }] = [] ∧
    claimDedup [{ text := some " " }] = [{ start := 0, stop := 0, text := "" }] ∧
    transcriptLines [{ text := some " " }] ≠ claimDedup [{ text := some " " }] := by
  refine ⟨by decide, by decide, by decide⟩

/-- C2 (amended). The Orchestrator's deduplication iterates collected
segments in receipt order and retains exactly the first-seen record for
each distinct non-empty normalized text value, in original order; every
later record whose normalized text matches an earlier one is dropped even
when its times differ, and every record whose normalized text is empty is
dropped as well (even at its first occurrence). -/
theorem c2_dedup_first_seen_nonempty (rs : List Segment) :
    transcriptLines rs = specDedup rs :=
  dedupAux_eq_specAux rs [] [] (by simp)

/-! ## Frame slicing lemmas -/

theorem slicesAux_nil {α : Type} (F fuel : Nat) :
    slicesAux F fuel ([] : List α) = [] := by
  cases fuel <;> rfl

theorem slicesAux_congr {α : Type} (F : Nat) (hF : 0 < F) :
    ∀ (fuel1 fuel2 : Nat) (s : List α), s.length ≤ fuel1 → s.length ≤ fuel2 →
      slicesAux F fuel1 s = slicesAux F fuel2 s := by
  intro fuel1
  induction fuel1 with
  | zero =>
    intro fuel2 s h1 _
    have : s = [] := List.eq_nil_of_length_eq_zero (Nat.le_zero.1 h1)
    subst this
    rw [slicesAux_nil, slicesAux_nil]
  | succ n ih =>
    intro fuel2 s h1 h2
    cases s with
    | nil => rw [slicesAux_nil, slicesAux_nil]
    | cons a t =>
      cases fuel2 with
      | zero => simp at h2
      | succ m =>
        show (a :: t).take F :: slicesAux F n ((a :: t).drop F) =
          (a :: t).take F :: slicesAux F m ((a :: t).drop F)
        congr 1
        apply ih
        · rw [List.length_drop]; simp at h1 ⊢; omega
        · rw [List.length_drop]; simp at h2 ⊢; omega

theorem slices_cons {α : Type} (F : Nat) (hF : 0 < F) (s : List α) (hs : s ≠ []) :
    slices F s = s.take F :: slices F (s.drop F) := by
  cases s with
  | nil => exact absurd rfl hs
  | cons a t =>
    show slicesAux F (t.length + 1) (a :: t) = _
    show (a :: t).take F :: slicesAux F t.length ((a :: t).drop F) = _
    congr 1
    apply slicesAux_congr F hF
    · rw [List.length_drop]; simp; omega
    · exact Nat.le_refl _

theorem slices_small {α : Type} (F : Nat) (hF : 0 < F) (s : List α)
    (hs : s ≠ []) (hlt : s.length ≤ F) : slices F s = [s] := by
  rw [slices_cons F hF s hs, List.take_of_length_le hlt,
    List.drop_eq_nil_of_le hlt]
  rfl

theorem slices_length {α : Type} (F : Nat) (hF : 0 < F) :
    ∀ (n : Nat) (s : List α), s.length ≤ n →
      (slices F s).length = (s.length + F - 1) / F := by
  intro n
  induction n with
  | zero =>
    intro s hs
    have : s = [] := List.eq_nil_of_length_eq_zero (Nat.le_zero.1 hs)
    subst this
    show (slicesAux F 0 ([] : List α)).length = (0 + F - 1) / F
    rw [slicesAux_nil]
    exact (Nat.div_eq_of_lt (by omega)).symm
  | succ n ih =>
    intro s hs
    by_cases hnil : s = []
    · subst hnil
      show (slicesAux F 0 ([] : List α)).length = (0 + F - 1) / F
      rw [slicesAux_nil]
      exact (Nat.div_eq_of_lt (by omega)).symm
    · have hlen : (1 : Nat) ≤ s.length :=
        Nat.one_le_iff_ne_zero.2 fun h => hnil (List.eq_nil_of_length_eq_zero h)
      rw [slices_cons F hF s hnil, List.length_cons,
        ih (s.drop F) (by rw [List.length_drop]; omega),
        List.length_drop]
      by_cases hLF : s.length ≤ F
      · have e1 : s.length - F = 0 := by omega
        have e2 : s.length + F - 1 = (s.length - 1) + F := by omega
        rw [e1, e2, Nat.add_div_right _ hF]
        have : (0 + F - 1) / F = 0 := Nat.div_eq_of_lt (by omega)
        have h2 : (s.length - 1) / F = 0 := Nat.div_eq_of_lt (by omega)
        omega
      · have e3 : s.length - F + F - 1 = (s.length - F - 1) + F := by omega
        have e4 : s.length + F - 1 = ((s.length - F - 1) + F) + F := by omega
        rw [e3, e4, Nat.add_div_right _ hF, Nat.add_div_right _ hF,
          Nat.add_div_right _ hF]


theorem slices_countP_full {α : Type} (F : Nat) (hF : 0 < F) :
    ∀ (n : Nat) (s : List α), s.length ≤ n →
      (slices F s).countP (fun c => c.length == F) = s.length / F := by
  intro n
  induction n with
  | zero =>
    intro s hs
    have : s = [] := List.eq_nil_of_length_eq_zero (Nat.le_zero.1 hs)
    subst this
    show (slicesAux F 0 ([] : List α)).countP _ = 0 / F
    rw [slicesAux_nil]
    simp
  | succ n ih =>
    intro s hs
    by_cases hnil : s = []
    · subst hnil
      show (slicesAux F 0 ([] : List α)).countP _ = 0 / F
      rw [slicesAux_nil]
      simp
    · have hlen : (1 : Nat) ≤ s.length :=
        Nat.one_le_iff_ne_zero.2 fun h => hnil (List.eq_nil_of_length_eq_zero h)
      rw [slices_cons F hF s hnil, List.countP_cons,
        ih (s.drop F) (by rw [List.length_drop]; omega)]
      by_cases hLF : F ≤ s.length
      · have htake : (s.take F).length = F := by rw [List.length_take]; omega
        have e1 : s.length - F + F = s.length := by omega
        simp only [htake, beq_self_eq_true, if_pos, List.length_drop]
        have := Nat.add_div_right (s.length - F) hF
        rw [e1] at this
        omega
      · have htake : (s.take F).length = s.length := by rw [List.length_take]; omega
        have hne : ((s.take F).length == F) = false := by
          rw [htake]; simp only [beq_eq_false_iff_ne, ne_eq]; omega
        rw [List.length_drop]
        have e1 : s.length - F = 0 := by omega
        have e2 : s.length / F = 0 := Nat.div_eq_of_lt (by omega)
        simp only [hne, if_neg, Bool.false_eq_true, e1, e2]
        simp

theorem slices_getLast_rem {α : Type} (F : Nat) (hF : 0 < F) :
    ∀ (n : Nat) (s : List α), s.length ≤ n → s.length % F ≠ 0 →
      ∃ c, (slices F s).getLast? = some c ∧
        c.length = s.length % F ∧ c.length < F := by
  intro n
  induction n with
  | zero =>
    intro s hs hmod
    have : s = [] := List.eq_nil_of_length_eq_zero (Nat.le_zero.1 hs)
    subst this
    simp at hmod
  | succ n ih =>
    intro s hs hmod
    by_cases hnil : s = []
    · subst hnil; simp at hmod
    · have hlen : (1 : Nat) ≤ s.length :=
        Nat.one_le_iff_ne_zero.2 fun h => hnil (List.eq_nil_of_length_eq_zero h)
      by_cases hLF : s.length ≤ F
      · have hlt : s.length < F := by
          rcases Nat.lt_or_ge s.length F with h | h
          · exact h
          · exfalso
            have : s.length = F := by omega
            rw [this, Nat.mod_self] at hmod
            exact hmod rfl
        refine ⟨s, ?_, ?_, ?_⟩
        · rw [slices_small F hF s hnil hLF]; rfl
        · rw [Nat.mod_eq_of_lt hlt]
        · exact hlt
      · have hgt : F < s.length := by omega
        have hmod' : (s.drop F).length % F ≠ 0 := by
          rw [List.length_drop]
          intro h
          apply hmod
          have e1 : s.length - F + F = s.length := by omega
          have := Nat.add_mod_right (s.length - F) F
          rw [e1] at this
          omega
        obtain ⟨c, hc1, hc2, hc3⟩ := ih (s.drop F) (by rw [List.length_drop]; omega) hmod'
        refine ⟨c, ?_, ?_, hc3⟩
        · rw [slices_cons F hF s hnil]
          have hne : slices F (s.drop F) ≠ [] := by
            intro h
            rw [h] at hc1
            simp at hc1
          exact (List.getLast?_append_of_ne_nil [s.take F] hne).trans hc1
        · rw [hc2, List.length_drop]
          have e1 : s.length - F + F = s.length := by omega
          have := Nat.add_mod_right (s.length - F) F
          rw [e1] at this
          omega

/-! ## Feeder trace lemmas -/

theorem framesOf_append {α : Type} (a b : List (FeedEv α)) :
    framesOf (a ++ b) = framesOf a ++ framesOf b :=
  List.filterMap_append a b _

theorem progressCounts_append {α : Type} (a b : List (FeedEv α)) :
    progressCounts (a ++ b) = progressCounts a ++ progressCounts b :=
  List.filterMap_append a b _

theorem senderGo_allOk {α : Type} (total : Nat) (ht : total ≠ 0) :
    ∀ (chunks : List (List α)) (sent : Nat),
      framesOf (senderGo total (fun _ => true) chunks sent).1 = chunks ∧
      (senderGo total (fun _ => true) chunks sent).2.1 = sent + chunks.length ∧
      (senderGo total (fun _ => true) chunks sent).2.2 = false := by
  intro chunks
  induction chunks with
  | nil => intro sent; exact ⟨rfl, by simp [senderGo], rfl⟩
  | cons c rest ih =>
    intro sent
    obtain ⟨ih1, ih2, ih3⟩ := ih (sent + 1)
    have hstep : senderGo total (fun _ => true) (c :: rest) sent =
        ((if (sent + 1) % (total / 10 + 1) = 0 then
            [FeedEv.frame c, FeedEv.progress (sent + 1) ((sent + 1) * 100 / total)]
          else [FeedEv.frame c]) ++ (senderGo total (fun _ => true) rest (sent + 1)).1,
         (senderGo total (fun _ => true) rest (sent + 1)).2.1,
         (senderGo total (fun _ => true) rest (sent + 1)).2.2) := by
      simp [senderGo, ht]
    rw [hstep]
    refine ⟨?_, ?_, ih3⟩
    · rw [framesOf_append]
      by_cases hm : (sent + 1) % (total / 10 + 1) = 0
      · simp only [if_pos hm]
        rw [ih1]
        rfl
      · simp only [if_neg hm]
        rw [ih1]
        rfl
    · simp only [ih2, List.length_cons]
      omega

theorem senderGo_progress {α : Type} (total : Nat) (ht : total ≠ 0) :
    ∀ (chunks : List (List α)) (sent : Nat),
      progressCounts (senderGo total (fun _ => true) chunks sent).1 =
        (List.range' (sent + 1) chunks.length).filter
          (fun c => c % (total / 10 + 1) == 0) := by
  intro chunks
  induction chunks with
  | nil => intro sent; rfl
  | cons c rest ih =>
    intro sent
    have hstep : (senderGo total (fun _ => true) (c :: rest) sent).1 =
        (if (sent + 1) % (total / 10 + 1) = 0 then
            [FeedEv.frame c, FeedEv.progress (sent + 1) ((sent + 1) * 100 / total)]
          else [FeedEv.frame c]) ++ (senderGo total (fun _ => true) rest (sent + 1)).1 := by
      simp [senderGo, ht]
    rw [hstep, progressCounts_append, ih (sent + 1), List.length_cons,
      List.range'_succ sent.succ rest.length 1, List.filter_cons]
    by_cases hm : (sent + 1) % (total / 10 + 1) = 0
    · simp only [if_pos hm]
      simp [progressCounts, hm]
    · simp only [if_neg hm]
      simp [progressCounts, hm]

theorem feeder_frames_allOk {α : Type} (F : Nat) (hF : 0 < F) (samples : List α) :
    framesOf (feeder F (fun _ => true) samples) = slices F samples := by
  by_cases ht : samples.length / F = 0
  · by_cases hnil : samples = []
    · subst hnil; rfl
    · have hlt : samples.length < F := (Nat.div_eq_zero_iff hF).1 ht
      have hsl : slices F samples = [samples] :=
        slices_small F hF samples hnil (le_of_lt hlt)
      simp [feeder, ht, hsl, senderGo, framesOf, frameChunk]
  · obtain ⟨h1, h2, h3⟩ := senderGo_allOk (samples.length / F) ht (slices F samples) 0
    simp only [feeder, h3, Bool.false_eq_true, if_neg, if_false]
    rw [framesOf_append, h1]
    simp [framesOf, frameChunk]

theorem feeder_progress_allOk {α : Type} (F : Nat) (samples : List α)
    (ht : samples.length / F ≠ 0) :
    progressCounts (feeder F (fun _ => true) samples) =
      (List.range' 1 (slices F samples).length).filter
        (fun c => c % (samples.length / F / 10 + 1) == 0) := by
  obtain ⟨h1, h2, h3⟩ := senderGo_allOk (samples.length / F) ht (slices F samples) 0
  have hp := senderGo_progress (samples.length / F) ht (slices F samples) 0
  simp only [feeder, h3, Bool.false_eq_true, if_neg, if_false]
  rw [progressCounts_append, hp]
  simp [progressCounts]

theorem senderGo_closed {α : Type} (total K : Nat) (ht : total ≠ 0) :
    ∀ (chunks : List (List α)) (sent : Nat), sent ≤ K → K - sent < chunks.length →
      ∃ pre, senderGo total (fun k => decide (k < K)) chunks sent =
          (pre ++ [FeedEv.closedLog K], K, false) ∧
        (framesOf pre).length = K - sent := by
  intro chunks
  induction chunks with
  | nil => intro sent h1 h2; simp at h2
  | cons c rest ih =>
    intro sent h1 h2
    by_cases hsK : sent < K
    · obtain ⟨pre, hpre, hlen⟩ := ih (sent + 1) (by omega)
        (by simp only [List.length_cons] at h2; omega)
      refine ⟨(if (sent + 1) % (total / 10 + 1) = 0 then
          [FeedEv.frame c, FeedEv.progress (sent + 1) ((sent + 1) * 100 / total)]
        else [FeedEv.frame c]) ++ pre, ?_, ?_⟩
      · have hstep : senderGo total (fun k => decide (k < K)) (c :: rest) sent =
            ((if (sent + 1) % (total / 10 + 1) = 0 then
                [FeedEv.frame c, FeedEv.progress (sent + 1) ((sent + 1) * 100 / total)]
              else [FeedEv.frame c]) ++
                (senderGo total (fun k => decide (k < K)) rest (sent + 1)).1,
             (senderGo total (fun k => decide (k < K)) rest (sent + 1)).2.1,
             (senderGo total (fun k => decide (k < K)) rest (sent + 1)).2.2) := by
          simp [senderGo, ht, hsK]
        rw [hstep, hpre]
        simp [List.append_assoc]
      · rw [framesOf_append]
        by_cases hm : (sent + 1) % (total / 10 + 1) = 0
        · simp only [if_pos hm]
          have : framesOf [FeedEv.frame c,
              FeedEv.progress (sent + 1) ((sent + 1) * 100 / total)] = [c] := rfl
          rw [this, List.length_append, hlen]
          simp; omega
        · simp only [if_neg hm]
          have : framesOf [FeedEv.frame c] = [c] := rfl
          rw [this, List.length_append, hlen]
          simp; omega
    · have hsK' : sent = K := by omega
      subst hsK'
      refine ⟨[], by simp [senderGo], by simp [framesOf]⟩

theorem feeder_closed {α : Type} (F K : Nat) (hF : 0 < F) (samples : List α)
    (hK : K < samples.length / F) :
    (framesOf (feeder F (fun k => decide (k < K)) samples)).length = K ∧
    ∃ pre, feeder F (fun k => decide (k < K)) samples =
        pre ++ [FeedEv.closedLog K, FeedEv.finishedLog K, FeedEv.grace,
          FeedEv.stopSignal] := by
  have ht : samples.length / F ≠ 0 := by omega
  have hchunks : K - 0 < (slices F samples).length := by
    rw [slices_length F hF samples.length samples (Nat.le_refl _)]
    have : samples.length / F ≤ (samples.length + F - 1) / F :=
      Nat.div_le_div_right (by omega)
    omega
  obtain ⟨pre, hpre, hlen⟩ :=
    senderGo_closed (samples.length / F) K ht (slices F samples) 0 (by omega) hchunks
  have hfeed : feeder F (fun k => decide (k < K)) samples =
      (pre ++ [FeedEv.closedLog K]) ++
        [FeedEv.finishedLog K, FeedEv.grace, FeedEv.stopSignal] := by
    simp [feeder, hpre]
  constructor
  · rw [hfeed, framesOf_append, framesOf_append]
    have h1 : framesOf [FeedEv.closedLog K (α := α)] = [] := rfl
    have h2 : framesOf [FeedEv.finishedLog K (α := α), FeedEv.grace,
        FeedEv.stopSignal] = [] := rfl
    rw [h1, h2]
    simp only [List.append_nil]
    omega
  · exact ⟨pre, by rw [hfeed]; simp [List.append_assoc]⟩

/-! ## Collector lemmas -/

theorem handleSeg_results (st : RecvState) (seg : Segment) :
    (handleSeg st seg).results = st.results ++ [seg] := by
  unfold handleSeg
  by_cases h : segKey seg ≠ "" ∧ segKey seg ≠ st.lastText
  · simp only [if_pos h]
  · simp only [if_neg h]

theorem handleSegs_results :
    ∀ (ss : List Segment) (st : RecvState),
      (handleSegs st ss).results = st.results ++ ss := by
  intro ss
  induction ss with
  | nil => intro st; simp [handleSegs]
  | cons s rest ih =>
    intro st
    show (handleSegs (handleSeg st s) rest).results = _
    rw [ih, handleSeg_results]
    simp

theorem string_append_empty (s : String) : s ++ "" = s := by
  cases s with
  | mk d =>
    show String.mk (d ++ []) = String.mk d
    rw [List.append_nil]

/-! ## Claim theorems -/

/-- C1 (counterexample). On a buffer of 1 sample with frame size 1600 the
Feeder transmits one frame — the trailing remainder of fewer than F
samples — although `floor(L / F) = 0`: the claim that exactly
`floor(L / F)` full frames are sent and a short remainder is never
transmitted is false. -/
theorem c1_remainder_transmitted :
    framesOf (feeder 1600 (fun _ => true) [(7 : Int)]) = [[7]] ∧
    [(7 : Int)].length / 1600 = 0 := by
  constructor
  · rfl
  · decide

/-- C1 (amended). For a buffer of length L and frame size F (0 < F), the
Feeder transmits every slice `samples[i:i+F]` for `i in range(0, L, F)`:
`ceil(L / F)` frames in all, of which exactly `floor(L / F)` are full
frames of F samples, and — whenever F does not divide L — one final
trailing frame of `L mod F < F` samples, which IS transmitted. -/
theorem c1_feeder_transmits_all_slices {α : Type} (F : Nat) (hF : 0 < F)
    (samples : List α) :
    framesOf (feeder F (fun _ => true) samples) = slices F samples ∧
    (slices F samples).length = (samples.length + F - 1) / F ∧
    (slices F samples).countP (fun c => c.length == F) = samples.length / F ∧
    (samples.length % F ≠ 0 →
      ∃ c, (slices F samples).getLast? = some c ∧
        c.length = samples.length % F ∧ c.length < F) :=
  ⟨feeder_frames_allOk F hF samples,
   slices_length F hF samples.length samples (Nat.le_refl _),
   slices_countP_full F hF samples.length samples (Nat.le_refl _),
   fun h => slices_getLast_rem F hF samples.length samples (Nat.le_refl _) h⟩

/-- C1 (witness). The amended statement evaluated at F = 2 on a 3-sample
buffer: 2 frames are transmitted, 1 full and 1 trailing of 1 sample. -/
theorem c1_feeder_transmits_all_slices_witness :
    framesOf (feeder 2 (fun _ => true) [(0 : Int), 0, 0]) =
      slices 2 [(0 : Int), 0, 0] ∧
    (slices 2 [(0 : Int), 0, 0]).length = (3 + 2 - 1) / 2 ∧
    (slices 2 [(0 : Int), 0, 0]).countP (fun c => c.length == 2) = 3 / 2 ∧
    (∃ c, (slices 2 [(0 : Int), 0, 0]).getLast? = some c ∧
      c.length = 3 % 2 ∧ c.length < 2) := by
  obtain ⟨h1, h2, h3, h4⟩ :=
    c1_feeder_transmits_all_slices 2 (by decide) [(0 : Int), 0, 0]
  exact ⟨h1, h2, h3, h4 (by decide)⟩

/-- C3 (counterexample). With a 1-sample buffer and frame size 1600 the
total frame count T is 0, so the claimed cadence `sent % (T // 10 + 1) == 0`
predicts a status line after the first send (1 % 1 == 0); instead the
progress computation `chunks_sent * 100 // total_chunks` divides by zero,
the Feeder aborts, and no status line is emitted. -/
theorem c3_zero_total_counterexample :
    progressCounts (feeder 1600 (fun _ => true) [(0 : Int)]) = [] ∧
    (1 : Nat) % ((1 : Nat) / 1600 / 10 + 1) = 0 ∧
    FeedEv.zeroDivCrash 1 ∈ feeder 1600 (fun _ => true) [(0 : Int)] := by
  refine ⟨rfl, by decide, ?_⟩
  show FeedEv.zeroDivCrash 1 ∈ [FeedEv.frame [(0 : Int)], FeedEv.zeroDivCrash 1]
  simp

/-- C3 (amended). For every total frame count T ≥ 1 the Feeder emits a
progress status line exactly at the sent counts c (over all transmitted
frames) with `c % (T // 10 + 1) == 0`; in particular for T = 25 the lines
fire at the multiples of 3.  (For T = 0 with a nonempty buffer the progress
computation divides by zero instead — see the counterexample.) -/
theorem c3_progress_cadence :
    (∀ (α : Type) (F : Nat) (samples : List α), 0 < F →
      samples.length / F ≠ 0 →
      progressCounts (feeder F (fun _ => true) samples) =
        (List.range' 1 (slices F samples).length).filter
          (fun c => c % (samples.length / F / 10 + 1) == 0)) ∧
    progressCounts (feeder 1 (fun _ => true) (List.replicate 25 (0 : Int))) =
      [3, 6, 9, 12, 15, 18, 21, 24] := by
  constructor
  · intro α F samples _ ht
    exact feeder_progress_allOk F samples ht
  · decide

/-- C3 (witness). The cadence equation evaluated at F = 2 on a 4-sample
buffer (T = 2, modulus 1: a line after every frame). -/
theorem c3_progress_cadence_witness :
    progressCounts (feeder 2 (fun _ => true) [(0 : Int), 0, 0, 0]) =
      (List.range' 1 (slices 2 [(0 : Int), 0, 0, 0]).length).filter
        (fun c => c % ((4 : Nat) / 2 / 10 + 1) == 0) :=
  c3_progress_cadence.1 Int 2 [(0 : Int), 0, 0, 0] (by decide) (by decide)

/-- C4 (counterexample). A run on a zero-frame audio file collects zero
segments, and its audio duration is 0: the report write sequence does not
complete — `total_time/audio_duration` at source line 189 raises
`ZeroDivisionError`, which escapes to the caller — and the file is left
holding only the five-line prefix, which contains no `Unique segments`
header line and no body.  So "the report file is still produced, with a
header line reporting 0 unique segments, and no exception escapes" is
false for this zero-segment run. -/
theorem c4_zero_duration_counterexample :
    (writeReport 1 "audio.wav" 0 1 []).completed = false ∧
    (writeReport 1 "audio.wav" 0 1 []).written = reportPrefix 1 "audio.wav" 0 1 := by
  constructor
  · rfl
  · rfl

/-- C4 (amended). When zero segments have been received and the audio
duration is non-zero (every audio file with at least one sample frame),
the report write completes with no exception escaping, the transcript body
is empty — the written content is exactly the header block and nothing
after it — and the header reports 0 unique segments. -/
theorem c4_empty_results_report (runNumber : Nat) (audioFile : String)
    (audioDuration processingTime : Rat) (hd : audioDuration ≠ 0) :
    transcriptLines [] = [] ∧
    (writeReport runNumber audioFile audioDuration processingTime []).completed = true ∧
    (writeReport runNumber audioFile audioDuration processingTime []).written =
      reportHeader runNumber audioFile audioDuration processingTime 0 := by
  refine ⟨rfl, ?_, ?_⟩
  · simp [writeReport, hd]
  · simp only [writeReport, if_neg hd]
    show reportHeader runNumber audioFile audioDuration processingTime 0 ++
      String.intercalate "\n" [] = _
    exact string_append_empty _

/-- C4 (witness). The amended statement at duration 1 s. -/
theorem c4_empty_results_report_witness :
    transcriptLines [] = [] ∧
    (writeReport 1 "audio.wav" 1 1 []).completed = true ∧
    (writeReport 1 "audio.wav" 1 1 []).written = reportHeader 1 "audio.wav" 1 1 0 :=
  c4_empty_results_report 1 "audio.wav" 1 1 (by decide)

/-- C5. If the connection closes after K frames (K strictly less than the
total frame count), the Feeder stops sending (exactly K frames were
transmitted), logs the close with count K, then still logs the finish with
count K, waits the grace period and only then raises the stop signal — and
the report is still written (the report text is produced for any collected
results). -/
theorem c5_connection_close_midstream {α : Type} (F K : Nat) (samples : List α)
    (hF : 0 < F) (hK : K < samples.length / F) :
    (framesOf (feeder F (fun k => decide (k < K)) samples)).length = K ∧
    (∃ pre, feeder F (fun k => decide (k < K)) samples =
        pre ++ [FeedEv.closedLog K, FeedEv.finishedLog K, FeedEv.grace,
          FeedEv.stopSignal]) ∧
    (∀ (runNumber : Nat) (audioFile : String) (d p : Rat) (rs : List Segment),
      reportText runNumber audioFile d p rs =
        reportHeader runNumber audioFile d p (transcriptLines rs).length ++
          String.intercalate "\n" ((transcriptLines rs).map formatLine)) := by
  refine ⟨(feeder_closed F K hF samples hK).1,
    (feeder_closed F K hF samples hK).2, ?_⟩
  intro _ _ _ _ _
  rfl

/-- C5 (witness). Frame size 1, close after 1 of 3 frames. -/
theorem c5_connection_close_midstream_witness :
    (framesOf (feeder 1 (fun k => decide (k < 1)) [(0 : Int), 0, 0])).length = 1 ∧
    (∃ pre, feeder 1 (fun k => decide (k < 1)) [(0 : Int), 0, 0] =
        pre ++ [FeedEv.closedLog 1, FeedEv.finishedLog 1, FeedEv.grace,
          FeedEv.stopSignal]) ∧
    reportText 1 "audio.wav" 1 1 [] =
      reportHeader 1 "audio.wav" 1 1 (transcriptLines []).length ++
        String.intercalate "\n" ((transcriptLines []).map formatLine) := by
  obtain ⟨h1, h2, h3⟩ := c5_connection_close_midstream 1 1 [(0 : Int), 0, 0]
    (by decide) (by decide)
  exact ⟨h1, h2, h3 1 "audio.wav" 1 1 []⟩

/-- C6 (counterexample). A malformed message followed by a well-formed
segment message: the code's Collector exits the loop at the malformed
message (the generic exception handler logs and breaks), so the later
segment is never appended — whereas skipping-and-continuing, as the claim
states, would have appended it (second conjunct). -/
theorem c6_malformed_counterexample :
    (receiver [InMsg.malformed, InMsg.record (some [{ text := some "hi" }]) none]
        initState).results = [] ∧
    (receiver [InMsg.record (some [{ text := some "hi" }]) none]
        initState).results = [{ text := some "hi" }] ∧
    (receiver [InMsg.malformed, InMsg.record (some [{ text := some "hi" }]) none]
        initState).recvErr = true := by
  refine ⟨rfl, ?_, rfl⟩
  decide

/-- C6 (amended). On a message with malformed content the Collector logs a
receiver error and exits its receive loop immediately: whatever messages
follow are never processed, and the state is unchanged except for the
logged error. -/
theorem c6_malformed_halts_loop (rest : List InMsg) (st : RecvState) :
    receiver (InMsg.malformed :: rest) st = { st with recvErr := true } := rfl

/-- C7. Classification of a parsed inbound record: a record with a
`"segments"` field has each contained segment appended to the results in
order (and the loop continues); a record without `"segments"` but with a
`"message"` field leaves the results unchanged and logs the message exactly
when it contains `"error"` case-insensitively; a record with neither field
is ignored with no state change at all. -/
theorem c7_message_classification (st : RecvState) (ss : List Segment)
    (msg : Option String) (s : String) :
    ((recvStep st (InMsg.record (some ss) msg)).1.results = st.results ++ ss ∧
      (recvStep st (InMsg.record (some ss) msg)).2 = true) ∧
    ((recvStep st (InMsg.record none (some s))).1.results = st.results ∧
      (recvStep st (InMsg.record none (some s))).1.errLog =
        st.errLog ++ (if hasError s then [s] else []) ∧
      (recvStep st (InMsg.record none (some s))).2 = true) ∧
    recvStep st (InMsg.record none none) = (st, true) := by
  refine ⟨⟨handleSegs_results ss st, rfl⟩, ⟨?_, ?_, rfl⟩, rfl⟩
  · by_cases h : hasError s <;> simp [recvStep, h]
  · by_cases h : hasError s <;> simp [recvStep, h]

/-- C8. The outbound message sequence of a session starts with the
configuration handshake, contains exactly one configuration message, and
none after the first position — so the configuration is sent exactly once
and before every audio frame, in every session (whatever the audio and
whenever the connection closes). -/
theorem c8_config_once_first {α : Type} (F runNumber : Nat)
    (sendOk : Nat → Bool) (samples : List α) :
    (outboundTrace F runNumber sendOk samples).head? =
      some (OutMsg.config ("long-test-" ++ toString runNumber) "en" "transcribe"
        "small.en" true) ∧
    (outboundTrace F runNumber sendOk samples).countP isConfig = 1 ∧
    (outboundTrace F runNumber sendOk samples).tail.countP isConfig = 0 := by
  have htail : ((feeder F sendOk samples).filterMap fun e => match e with
      | FeedEv.frame c => some (OutMsg.audioFrame c)
      | _ => none).countP isConfig = 0 := by
    rw [List.countP_eq_zero]
    intro m hm
    simp only [List.mem_filterMap] at hm
    obtain ⟨e, _, hme⟩ := hm
    cases e with
    | frame c =>
      simp only [Option.some.injEq] at hme
      subst hme
      simp [isConfig]
    | progress a b => simp at hme
    | closedLog a => simp at hme
    | zeroDivCrash a => simp at hme
    | finishedLog a => simp at hme
    | grace => simp at hme
    | stopSignal => simp at hme
  refine ⟨rfl, ?_, ?_⟩
  · show ((OutMsg.config _ _ _ _ _) :: _).countP isConfig = 1
    rw [List.countP_cons, htail]
    rfl
  · exact htail

/-- C9. The unique-segment count written in the report header equals the
number of transcript lines written in the report body: both are the length
of the deduplicated `transcript_lines` list, computed once and used for
both the header and the joined body. -/
theorem c9_header_count_matches_body (runNumber : Nat) (audioFile : String)
    (d p : Rat) (rs : List Segment) :
    reportText runNumber audioFile d p rs =
      reportHeader runNumber audioFile d p (transcriptLines rs).length ++
        String.intercalate "\n" ((transcriptLines rs).map formatLine) ∧
    (transcriptLines rs).length = ((transcriptLines rs).map formatLine).length :=
  ⟨rfl, (List.length_map _ _).symm⟩

/-- C10. The Collector appends every received segment to the results list —
including segments whose text is empty or whitespace-only — yet no such
segment ever produces a transcript line: every line of the written
transcript has non-empty text after whitespace stripping. -/
theorem c10_empty_text_collected_never_printed :
    (∀ (st : RecvState) (ss : List Segment),
      (handleSegs st ss).results = st.results ++ ss) ∧
    (∀ (rs : List Segment) (l : TranscriptLine), l ∈ transcriptLines rs →
      pystrip l.text ≠ "") := by
  refine ⟨fun st ss => handleSegs_results ss st, fun rs l h => ?_⟩
  obtain ⟨h1, h2⟩ := mem_dedupAux_text rs [] l h
  rw [h2]
  exact h1

/-- C10 (witness). A whitespace-only segment is appended to the results,
and a concrete transcript line has non-empty stripped text. -/
theorem c10_empty_text_collected_never_printed_witness :
    (handleSegs initState [{ text := some "  " }]).results =
      initState.results ++ [{ text := some "  " }] ∧
    ({ start := 0, stop := 0, text := "hi" } : TranscriptLine) ∈
      transcriptLines [{ text := some " hi ", start := some 0, stop := some 0 }] ∧
    pystrip "hi" ≠ "" := by
  have hm : ({ start := 0, stop := 0, text := "hi" } : TranscriptLine) ∈
      transcriptLines [{ text := some " hi ", start := some 0, stop := some 0 }] := by
    decide
  exact ⟨c10_empty_text_collected_never_printed.1 initState [{ text := some "  " }],
    hm, c10_empty_text_collected_never_printed.2 _ _ hm⟩

end WL
